import Mathlib

/-!
Shallow embedding of the grouping/sorting specification engine of the
analyzed repository (source file `src/pvc/data/GroupingSpec.js`).

The embedding mirrors the source closely:
* `Atom`, `DimensionType`, `ComplexType` and `Datum` model the external
  capabilities the source consumes (spec sections 3 and 6): an atom wraps a
  value and exposes a stable `globalKey` string; a dimension type exposes a
  name, a discreteness flag and a comparator factory `atomComparer`; a complex
  type resolves dimension names; a datum maps dimension names to atoms.
* `GroupingDimensionSpec`, `GroupingLevelSpec` and `GroupingSpec` are the three
  spec types of the source, with their `init` constructors translated from the
  corresponding `def.type(...).init(...)` bodies.
* JavaScript exceptions thrown through `def.fail.argumentRequired` /
  `def.fail.argumentInvalid` are modelled with `Except GroupingError`;
  absent (null/undefined) arguments are modelled with `Option`.
* Partiality of `datum.atoms[name]` lookup (a datum may lack an atom for a
  dimension name) is modelled with `Option Atom`; operations that would
  dereference a missing atom are `Option`-valued.
-/

namespace pvc.data

/-- An external value wrapper: holds an underlying (orderable) value and the
stable `globalKey()` string used for composite key construction. -/
structure Atom where
  value : Int
  globalKey : String
deriving DecidableEq, Repr

/-- Modelled from the spec: the default dimension comparer is `def.ascending`
(a standard `a < b ? -1 : a > b ? 1 : 0` three-way comparison over the
dimension's values); its implementation lives in the `def` utility library
outside the analyzed sources. -/
def ascendingCompare (x y : Atom) : Int :=
  if x.value < y.value then -1 else if y.value < x.value then 1 else 0

/-- Modelled from the spec: the external `DimensionType.atomComparer(reverse)`
capability returns an integer comparator over atoms; `reverse` swaps the
comparison (descending is ascending with swapped arguments). The concrete
implementation is in the surrounding library, outside the analyzed sources. -/
def modelAtomComparer (reverse : Bool) (x y : Atom) : Int :=
  if reverse then ascendingCompare y x else ascendingCompare x y

/-- The external dimension-type capability: a name, a discreteness flag and a
comparator factory `atomComparer(reverse)`. -/
structure DimensionType where
  name : String
  isDiscrete : Bool
  atomComparer : Bool → Atom → Atom → Int

/-- The external complex-type capability: resolves a dimension name to its
dimension type (`none` models an unknown name, which the source propagates
as an argument-invalid failure). -/
structure ComplexType where
  dimensions : String → Option DimensionType

/-- A datum: a record exposing named atoms (`datum.atoms` in the source). A
JavaScript object is modelled by an association list; a name the datum has no
atom for looks up to `none` (JavaScript `undefined`). -/
structure Datum where
  atoms : List (String × Atom)

/-- `datum.atoms[dimName]` of the source. -/
def Datum.getAtom (d : Datum) (name : String) : Option Atom :=
  d.atoms.lookup name

/-- `pvc.data.GroupingDimensionSpec`: one dimension plus an order flag, the
comparator it implies, and its id. -/
structure GroupingDimensionSpec where
  name : String
  reverse : Bool
  type : DimensionType
  comparer : Atom → Atom → Int
  id : String

/-- The `pvc.data.GroupingDimensionSpec` constructor (`init`): stores the
dimension type's name, the (boolean-coerced) reverse flag, the comparator
`dimType.atomComparer(reverse)` and the id `name + ":" + (reverse ? '0' : '1')`. -/
def GroupingDimensionSpec.init (dimType : DimensionType) (reverse : Bool) :
    GroupingDimensionSpec :=
  { name := dimType.name
    reverse := reverse
    type := dimType
    comparer := dimType.atomComparer reverse
    id := dimType.name ++ ":" ++ (if reverse then "0" else "1") }

/-- `GroupingDimensionSpec.compareDatums(a, b)`: looks up each datum's atom for
this dimension's name and applies the precomputed comparer. A missing atom
(JavaScript `undefined`) takes the comparer outside its typed domain, which the
model renders as `none`. The source's `if(result !== 0) return result; return 0`
is the identity on the comparer's result. -/
def GroupingDimensionSpec.compareDatums (ds : GroupingDimensionSpec)
    (a b : Datum) : Option Int :=
  match a.getAtom ds.name, b.getAtom ds.name with
  | some x, some y => some (ds.comparer x y)
  | _, _ => none

/-- `pvc.data.GroupingLevelSpec`: an ordered sequence of dimension specs, the
level id, and the level depth. (The source also stores a `comparer` closure
over `compare`, represented here by the `compare` function itself.) -/
structure GroupingLevelSpec where
  dimensions : List GroupingDimensionSpec
  id : String
  depth : Nat

/-- The `pvc.data.GroupingLevelSpec` constructor (`init`): collects the
dimension ids, joins them with `,` for the level id, and sets
`depth = dimensions.length`. -/
def GroupingLevelSpec.init (dimSpecs : List GroupingDimensionSpec) :
    GroupingLevelSpec :=
  { dimensions := dimSpecs
    id := String.intercalate "," (dimSpecs.map GroupingDimensionSpec.id)
    depth := dimSpecs.length }

/-- The loop body of `GroupingLevelSpec.compare`: walk the dimensions in order,
return the first non-zero `compareDatums` result, and 0 when every dimension
ties. A dimension whose `compareDatums` is undefined (missing atom) makes the
whole comparison undefined; dimensions after an early non-zero result are
never consulted (the source returns from inside the loop). -/
def compareDims (dims : List GroupingDimensionSpec) (a b : Datum) : Option Int :=
  match dims with
  | [] => some 0
  | d :: rest =>
    match d.compareDatums a b with
    | none => none
    | some r => if r = 0 then compareDims rest a b else some r

/-- `GroupingLevelSpec.compare(a, b)`. The source loop runs `i` from 0 to
`this.depth`, indexing `this.dimensions[i]`; `depth` is set to
`dimensions.length` by the constructor, rendered here by iterating over the
first `depth` dimensions. -/
def GroupingLevelSpec.compare (l : GroupingLevelSpec) (a b : Datum) : Option Int :=
  compareDims (l.dimensions.take l.depth) a b

/-- The result record of `GroupingLevelSpec.key`: the composite key string and
the collected atoms. -/
structure LevelKey where
  key : String
  atoms : List Atom
deriving DecidableEq, Repr

/-- The loop body of `GroupingLevelSpec.key`: for each dimension in order, look
up the datum's atom, collect the atom and its `globalKey()`. A missing atom
makes the operation undefined (the source would dereference `undefined`). -/
def keyLists (dims : List GroupingDimensionSpec) (datum : Datum) :
    Option (List String × List Atom) :=
  match dims with
  | [] => some ([], [])
  | ds :: rest =>
    match datum.getAtom ds.name with
    | none => none
    | some atom =>
      match keyLists rest datum with
      | none => none
      | some (ks, ats) => some (atom.globalKey :: ks, atom :: ats)

/-- `GroupingLevelSpec.key(datum)`: joins the collected global keys with `,`
and returns them with the atoms, in dimension order. As in `compare`, the
source loop bound is `this.depth`. -/
def GroupingLevelSpec.key (l : GroupingLevelSpec) (datum : Datum) :
    Option LevelKey :=
  (keyLists (l.dimensions.take l.depth) datum).map
    (fun p => { key := String.intercalate "," p.1, atoms := p.2 })

/-- The first non-zero entry of a list of comparison results, 0 when all are
zero — the value a strict lexicographic composite comparator returns given the
per-dimension results. -/
def firstNonZero : List Int → Int
  | [] => 0
  | r :: rest => if r = 0 then firstNonZero rest else r

/-- The two failure classes of the source's `def.fail` assertions (spec
section 7): a mandatory argument is absent, or an argument is structurally
present but semantically invalid. Each carries the argument name the source
passes to `def.fail`. -/
inductive GroupingError where
  | argumentRequired (name : String)
  | argumentInvalid (name : String)
deriving DecidableEq, Repr

/-- `pvc.data.GroupingSpec`: the levels, the complex type, and the derived
metadata computed by the constructor. -/
structure GroupingSpec where
  type : ComplexType
  levels : List GroupingLevelSpec
  hasCompositeLevels : Bool
  depth : Nat
  isSingleLevel : Bool
  isSingleDimension : Bool
  firstDimension : Option GroupingDimensionSpec
  flatteningMode : Option String
  flattenRootLabel : String
  id : String

/-- The `pvc.data.GroupingSpec` constructor (`init`). Faithful to the source:
`levelSpecs || def.fail.argumentRequired`, `complexType || ...` (absence
modelled by `none`); levels with zero dimensions are filtered out while the
retained levels' ids are collected and `hasCompositeLevels` accumulated; an
argument-invalid failure when no level remains; `flatteningMode` is
`def.get(keyArgs,...) || null` (an empty string is falsy and becomes null) and
`flattenRootLabel` is `def.get(keyArgs,...) || ''`; the id is
`(flatteningMode || '') + "##" + flattenRootLabel + "##" + ids.join('||')`. -/
def GroupingSpec.init (levelSpecs : Option (List GroupingLevelSpec))
    (complexType : Option ComplexType)
    (flatteningMode flattenRootLabel : Option String) :
    Except GroupingError GroupingSpec :=
  match levelSpecs with
  | none => .error (.argumentRequired "levelSpecs")
  | some ls =>
    match complexType with
    | none => .error (.argumentRequired "complexType")
    | some ct =>
      let levels := ls.filter (fun l => decide (0 < l.dimensions.length))
      if levels.length = 0 then .error (.argumentInvalid "levelSpecs")
      else
        let fm := flatteningMode.bind (fun s => if s = "" then none else some s)
        let frl := flattenRootLabel.getD ""
        .ok
          { type := ct
            levels := levels
            hasCompositeLevels := levels.any (fun l => decide (1 < l.dimensions.length))
            depth := levels.length
            isSingleLevel := levels.length == 1
            isSingleDimension :=
              (levels.length == 1) && !(levels.any (fun l => decide (1 < l.dimensions.length)))
            firstDimension := levels.head?.bind (fun l => l.dimensions.head?)
            flatteningMode := fm
            flattenRootLabel := frl
            id := (fm.getD "") ++ "##" ++ frl ++ "##" ++
                  String.intercalate "||" (levels.map GroupingLevelSpec.id) }

/-- `GroupingSpec#dimensions()`: the flattened sequence of dimension specs
across all levels, in level order then within-level order. -/
def GroupingSpec.dimensions (g : GroupingSpec) : List GroupingDimensionSpec :=
  (g.levels.map GroupingLevelSpec.dimensions).flatten

/-- `GroupingSpec#dimensionNames()`. -/
def GroupingSpec.dimensionNames (g : GroupingSpec) : List String :=
  g.dimensions.map GroupingDimensionSpec.name

/-- `GroupingSpec#isDiscrete()`. -/
def GroupingSpec.isDiscrete (g : GroupingSpec) : Bool :=
  !g.isSingleDimension ||
    (g.firstDimension.map (fun d => d.type.isDiscrete)).getD false

/-- The dimension rebuild of `GroupingSpec#reversed()`:
`new pvc.data.GroupingDimensionSpec(dimSpec.type, !dimSpec.reverse)`. -/
def GroupingDimensionSpec.reversedSpec (d : GroupingDimensionSpec) :
    GroupingDimensionSpec :=
  GroupingDimensionSpec.init d.type (!d.reverse)

/-- The level rebuild of `GroupingSpec#reversed()`: a new level over the
reversed dimension specs. -/
def GroupingLevelSpec.reversedSpec (l : GroupingLevelSpec) : GroupingLevelSpec :=
  GroupingLevelSpec.init (l.dimensions.map GroupingDimensionSpec.reversedSpec)

/-- `GroupingSpec#reversed()`: a grouping spec with the same level structure
and every dimension's order flag inverted; `flatteningMode` is carried over,
`flattenRootLabel` is not. (The source caches the result on the instance; the
cache is referentially transparent and not modelled.) -/
def GroupingSpec.reversed (g : GroupingSpec) : Except GroupingError GroupingSpec :=
  GroupingSpec.init (some (g.levels.map GroupingLevelSpec.reversedSpec))
    (some g.type) g.flatteningMode none

/-- `GroupingSpec#singleLevelGrouping(keyArgs)`: when already single-level with
no reversal requested, returns `this` unchanged; otherwise collapses every
dimension of every level into one composite level, inverting each dimension's
order flag when `reverse` is requested, carrying over `flatteningMode`.
(The per-flag cache of the source is referentially transparent and not
modelled.) -/
def GroupingSpec.singleLevelGrouping (g : GroupingSpec) (reverse : Bool) :
    Except GroupingError GroupingSpec :=
  if g.isSingleLevel && !reverse then .ok g
  else
    let dimSpecs := g.dimensions.map (fun dimSpec =>
      if reverse then GroupingDimensionSpec.init dimSpec.type (!dimSpec.reverse)
      else dimSpec)
    let levelSpec := GroupingLevelSpec.init dimSpecs
    GroupingSpec.init (some [levelSpec]) (some g.type) g.flatteningMode none

/-- `GroupingSpec#ensure(keyArgs)`. Faithful to the source: the
`flatteningMode` option is tested for truthiness (an empty string is falsy);
the sentinel `'singleLevel'` delegates to `singleLevelGrouping` (returning
directly, so that call alone honors `reverse`); otherwise, when the requested
mode or root label differs from the current ones, the grouping is rebuilt over
the same levels and type with the new flattening metadata; finally a truthy
`reverse` option applies `reversed()` to the (possibly rebuilt) grouping. -/
def GroupingSpec.ensure (g : GroupingSpec) (fmArg frlArg : Option String)
    (revArg : Option Bool) : Except GroupingError GroupingSpec :=
  match fmArg.bind (fun s => if s = "" then none else some s) with
  | some fm =>
    if fm = "singleLevel" then
      g.singleLevelGrouping (revArg.getD false)
    else
      let frl := frlArg.getD ""
      let rebuilt : Except GroupingError GroupingSpec :=
        if g.flatteningMode = some fm ∧ g.flattenRootLabel = frl then .ok g
        else GroupingSpec.init (some g.levels) (some g.type) (some fm) (some frl)
      rebuilt.bind (fun g2 => if revArg.getD false then g2.reversed else .ok g2)
  | none => if revArg.getD false then g.reversed else .ok g

/-! ### The textual grammar parser

The JavaScript string operations (`split`, regular-expression trimming and
matching) are modelled with structural-recursive helpers over the character
list of a `String`, so that every parse of a concrete specification text
evaluates inside the kernel. -/

/-- Character-list core of splitting a string on a separator predicate:
`acc` holds the (reversed) characters of the piece being read. Mirrors
JavaScript `String#split`, which yields one piece more than the number of
separators (an empty input gives one empty piece). -/
def charSplitAux (isSep : Char → Bool) : List Char → List Char → List String
  | [], acc => [String.mk acc.reverse]
  | c :: rest, acc =>
    if isSep c then String.mk acc.reverse :: charSplitAux isSep rest []
    else charSplitAux isSep rest (c :: acc)

/-- Split a string on a separator predicate. -/
def charSplit (isSep : Char → Bool) (s : String) : List String :=
  charSplitAux isSep s.data []

/-- Strip leading whitespace (the `\s*` that follows a separator). -/
def strTrimLeft (s : String) : String :=
  String.mk (s.data.dropWhile Char.isWhitespace)

/-- Strip trailing whitespace (the `\s*` that precedes a separator). -/
def strTrimRight (s : String) : String :=
  String.mk ((s.data.reverse.dropWhile Char.isWhitespace).reverse)

/-- Strip surrounding whitespace. -/
def strTrim (s : String) : String := strTrimLeft (strTrimRight s)

/-- Lowercase every character (the `i` flag of the dimension pattern). -/
def strToLower (s : String) : String :=
  String.mk (s.data.map Char.toLower)

/-- Trimming of the interior pieces produced by splitting on a separator
regex of the shape `\s*SEP\s*`: whitespace before a separator is trimmed from
the right end of the preceding piece, whitespace after a separator from the
left end of the following piece; the outer ends of the whole string are left
untouched. `trimPiecesRest` handles the pieces after the first. -/
def trimPiecesRest : List String → List String
  | [] => []
  | [x] => [strTrimLeft x]
  | x :: xs => strTrim x :: trimPiecesRest xs

/-- See `trimPiecesRest`; handles the first piece. -/
def trimPieces : List String → List String
  | [] => []
  | [x] => [x]
  | x :: xs => strTrimRight x :: trimPiecesRest xs

/-- `s.split(/\s*SEP\s*/)` of the source, for a single separator character:
split on the separator, then absorb the whitespace adjacent to each
separator. -/
def wsSplit (isSep : Char → Bool) (s : String) : List String :=
  trimPieces (charSplit isSep s)

/-- The match of `groupSpec_matchDimSpec = /^\s*(.+?)(?:\s+(asc|desc))?\s*$/i`
against one dimension fragment: `none` when the regex fails (only on the empty
string — the lazy name group needs at least one character), otherwise the
captured name and the lowercased order token. The lazy name group takes the
fragment trimmed of surrounding whitespace, minus one trailing
whitespace-preceded case-insensitive `asc`/`desc` token when present. A
fragment of only whitespace still matches, with a single whitespace character
as the name. -/
def groupSpec_matchDimSpec (dimSpecText : String) : Option (String × Option String) :=
  if dimSpecText.isEmpty then none
  else
    let core := strTrim dimSpecText
    if core.isEmpty then
      some (String.mk [dimSpecText.data.getLastD ' '], none)
    else
      let stripTok : String → Option String := fun tok =>
        if tok.data.isSuffixOf (strToLower core).data then
          let pre := String.mk (core.data.take (core.data.length - tok.data.length))
          if !pre.isEmpty && (pre.data.getLastD 'a').isWhitespace then
            some (strTrimRight pre)
          else none
        else none
      match stripTok "desc" with
      | some name => some (name, some "desc")
      | none =>
        match stripTok "asc" with
        | some name => some (name, some "asc")
        | none => some (core, none)

/-- `groupSpec_parseGroupingLevel(groupLevelText, type)`: splits the level text
on `/\s*\|\s*/`, drops falsy (empty) fragments, matches each fragment against
the dimension pattern (argument-invalid on failure), resolves the name against
the complex type, and builds one dimension spec per fragment with
`reverse` true iff the lowercased order token is `'desc'`.

The name resolution `type.dimensions(name)` is an external capability;
modelled from the spec: an unknown name propagates as an argument-invalid
failure. -/
def groupSpec_parseGroupingLevel (groupLevelText : String) (type : ComplexType) :
    Except GroupingError (List GroupingDimensionSpec) :=
  ((wsSplit (fun c => c = '|') groupLevelText).filter
      (fun f => !f.isEmpty)).mapM (fun dimSpecText =>
    match groupSpec_matchDimSpec dimSpecText with
    | none => .error (.argumentInvalid "groupLevelText")
    | some (name, order) =>
      match type.dimensions name with
      | none => .error (.argumentInvalid "name")
      | some dimType =>
        .ok (GroupingDimensionSpec.init dimType (order == some "desc")))

/-- The `specText` argument of `GroupingSpec.parse`: a string or an array of
per-level strings (`none` at the call site models an absent argument). -/
def SpecText := String ⊕ List String

/-- JavaScript truthiness of the `specText` argument: an empty string is
falsy; an array (even empty) is truthy. -/
def specTextIsFalsy : SpecText → Bool
  | .inl s => s.isEmpty
  | .inr _ => false

/-- `pvc.data.GroupingSpec.parse(specText, type)`. Faithful to the source:
`specText || def.fail.argumentRequired('groupingSpecText')` (so an absent
argument or an empty string fails argument-required), then
`type || def.fail.argumentRequired('type')`; a string splits on `/\s*,\s*/`
into level texts, an array is taken as the level texts; each level text is
parsed into dimension specs and wrapped in a level spec; the level specs and
type go to the `GroupingSpec` constructor. -/
def GroupingSpec.parse (specText : Option SpecText) (type : Option ComplexType) :
    Except GroupingError GroupingSpec :=
  match specText with
  | none => .error (.argumentRequired "groupingSpecText")
  | some st =>
    if specTextIsFalsy st then .error (.argumentRequired "groupingSpecText")
    else
      match type with
      | none => .error (.argumentRequired "type")
      | some ct =>
        let levels : List String :=
          match st with
          | .inr arr => arr
          | .inl s => wsSplit (fun c => c = ',') s
        match levels.mapM (fun levelText =>
            (groupSpec_parseGroupingLevel levelText ct).map
              GroupingLevelSpec.init) with
        | .error e => .error e
        | .ok levelSpecs => GroupingSpec.init (some levelSpecs) (some ct) none none

/-! ### Observations and well-formedness

`GroupingSpec` and its components carry function-valued capabilities
(`ComplexType.dimensions`, `DimensionType.atomComparer`), so concrete results
are observed through their decidable projections. The well-formedness
predicates say that a record was produced by its constructor — every spec
object the source ever creates goes through `init` (spec section 3:
"immutable value objects constructed once"). -/

/-- The observable shape of a level: its dimensions' names and order flags. -/
def levelShape (l : GroupingLevelSpec) : List (String × Bool) :=
  l.dimensions.map (fun d => (d.name, d.reverse))

/-- The observable shape of a construction result: depth, composite-level
flag, and per-level dimension shapes (or `none` on failure). -/
def specShape : Except GroupingError GroupingSpec →
    Option (Nat × Bool × List (List (String × Bool)))
  | .error _ => none
  | .ok g => some (g.depth, g.hasCompositeLevels, g.levels.map levelShape)

/-- The id of a successfully constructed grouping spec. -/
def idOf : Except GroupingError GroupingSpec → Option String
  | .error _ => none
  | .ok g => some g.id

/-- The error of a failed construction. -/
def errOf : Except GroupingError GroupingSpec → Option GroupingError
  | .error e => some e
  | .ok _ => none

/-- A dimension spec is well formed when it is the constructor's output for
its own type and reverse flag — the source invariant "`comparer` is exactly
`type.atomComparer(reverse)`" (spec section 3). -/
def GroupingDimensionSpec.WF (d : GroupingDimensionSpec) : Prop :=
  d = GroupingDimensionSpec.init d.type d.reverse

/-- A level spec is well formed when it is the constructor's output for its
dimension list, the list is non-empty (levels retained by the `GroupingSpec`
constructor have at least one dimension), and its dimensions are well
formed. -/
def GroupingLevelSpec.WF (l : GroupingLevelSpec) : Prop :=
  l = GroupingLevelSpec.init l.dimensions ∧ l.dimensions ≠ [] ∧
    ∀ d ∈ l.dimensions, d.WF

/-- The level structure of a grouping spec is well formed when the level list
is non-empty and all levels are well formed — the post-construction invariant
of `GroupingSpec.init`. -/
def GroupingSpec.WFLevels (g : GroupingSpec) : Prop :=
  g.levels ≠ [] ∧ ∀ l ∈ g.levels, l.WF

/-- A level built from dimension types and reverse flags, the way every level
of the program is built (each dimension spec through its constructor). -/
def modelLevel (specs : List (DimensionType × Bool)) : GroupingLevelSpec :=
  GroupingLevelSpec.init (specs.map (fun p => GroupingDimensionSpec.init p.1 p.2))

/-! ### Concrete fixtures -/

/-- A dimension type named `x` with the modelled comparator. -/
def dimTypeX : DimensionType :=
  { name := "x", isDiscrete := true, atomComparer := modelAtomComparer }

/-- A dimension type named `y` with the modelled comparator. -/
def dimTypeY : DimensionType :=
  { name := "y", isDiscrete := true, atomComparer := modelAtomComparer }

/-- The ascending dimension spec over `x`. -/
def dimX : GroupingDimensionSpec := GroupingDimensionSpec.init dimTypeX false

/-- The ascending dimension spec over `y`. -/
def dimY : GroupingDimensionSpec := GroupingDimensionSpec.init dimTypeY false

/-- A composite level over `x` then `y`. -/
def levelXY : GroupingLevelSpec := GroupingLevelSpec.init [dimX, dimY]

/-- A single-dimension level over `x`. -/
def levelX : GroupingLevelSpec := GroupingLevelSpec.init [dimX]

/-- A complex type resolving `x` and `y`. -/
def sampleCT : ComplexType :=
  { dimensions := fun n =>
      if n = "x" then some dimTypeX else if n = "y" then some dimTypeY else none }

/-- A complex type resolving `series1`, `series2` and `category`. -/
def seriesCatCT : ComplexType :=
  { dimensions := fun n =>
      if n = "series1" ∨ n = "series2" ∨ n = "category" then
        some { name := n, isDiscrete := true, atomComparer := modelAtomComparer }
      else none }

/-- A datum with atoms for `x` and `y`. -/
def datumA : Datum := ⟨[("x", ⟨1, "gx1"⟩), ("y", ⟨5, "gy5"⟩)]⟩

/-- A second datum with atoms for `x` and `y`. -/
def datumB : Datum := ⟨[("x", ⟨2, "gx2"⟩), ("y", ⟨7, "gy7"⟩)]⟩

/-- A datum agreeing with `datumA` on `x` (value and global key) but not `y`. -/
def datumA2 : Datum := ⟨[("x", ⟨1, "gx1"⟩), ("y", ⟨9, "gy9"⟩)]⟩

/-- A datum with an atom for `x` but none for `y`. -/
def datumNoY : Datum := ⟨[("x", ⟨2, "gx2"⟩)]⟩

/-- A comparator that is zero exactly on atoms with equal global keys — a
comparator for which `globalKey` is a faithful equality witness. -/
def keyEqComparer (x y : Atom) : Int :=
  if x.globalKey = y.globalKey then 0 else 1

/-- A dimension type over `x` whose comparator is `keyEqComparer`. -/
def dimTypeK : DimensionType :=
  { name := "x", isDiscrete := true, atomComparer := fun _ => keyEqComparer }

/-- The ascending dimension spec over `dimTypeK`. -/
def dimK : GroupingDimensionSpec := GroupingDimensionSpec.init dimTypeK false

/-- The grouping spec the constructor produces for the single level `levelX`
over `sampleCT` with no flattening arguments. -/
def sampleG : GroupingSpec :=
  { type := sampleCT
    levels := [levelX]
    hasCompositeLevels := false
    depth := 1
    isSingleLevel := true
    isSingleDimension := true
    firstDimension := some dimX
    flatteningMode := none
    flattenRootLabel := ""
    id := "####x:1" }

/-! ### Shared lemmas about the level comparator and key -/

theorem compareDims_eq_firstNonZero (a b : Datum) :
    ∀ (dims : List GroupingDimensionSpec) (rs : List Int),
      dims.map (fun d => d.compareDatums a b) = rs.map some →
      compareDims dims a b = some (firstNonZero rs) := by
  intro dims
  induction dims with
  | nil =>
    intro rs h
    cases rs with
    | nil => simp [compareDims, firstNonZero]
    | cons r rs' => simp at h
  | cons d rest ih =>
    intro rs h
    cases rs with
    | nil => simp at h
    | cons r rs' =>
      simp only [List.map_cons, List.cons.injEq] at h
      obtain ⟨h1, h2⟩ := h
      by_cases hr : r = 0
      · simp [compareDims, h1, hr, ih rs' h2, firstNonZero]
      · simp [compareDims, h1, hr, firstNonZero]

theorem init_compare_eq_compareDims (dims : List GroupingDimensionSpec)
    (a b : Datum) :
    (GroupingLevelSpec.init dims).compare a b = compareDims dims a b := by
  simp [GroupingLevelSpec.compare, GroupingLevelSpec.init, List.take_length]

theorem init_key_eq_keyLists (dims : List GroupingDimensionSpec) (d : Datum) :
    (GroupingLevelSpec.init dims).key d =
      (keyLists dims d).map
        (fun p => { key := String.intercalate "," p.1, atoms := p.2 }) := by
  simp [GroupingLevelSpec.key, GroupingLevelSpec.init, List.take_length]

theorem ascendingCompare_antisymm (x y : Atom) :
    ascendingCompare x y = -(ascendingCompare y x) := by
  simp only [ascendingCompare]
  split_ifs <;> omega

theorem ascendingCompare_self (x : Atom) : ascendingCompare x x = 0 := by
  simp [ascendingCompare]

theorem modelAtomComparer_antisymm (rev : Bool) (x y : Atom) :
    modelAtomComparer rev x y = -(modelAtomComparer rev y x) := by
  cases rev
  · simpa [modelAtomComparer] using ascendingCompare_antisymm x y
  · simpa [modelAtomComparer] using ascendingCompare_antisymm y x

theorem modelAtomComparer_self (rev : Bool) (x : Atom) :
    modelAtomComparer rev x x = 0 := by
  cases rev <;> simp [modelAtomComparer, ascendingCompare_self]

theorem compareDims_antisymm :
    ∀ (dims : List GroupingDimensionSpec) (a b : Datum),
      (∀ d ∈ dims, ∀ x y : Atom, d.comparer x y = -(d.comparer y x)) →
      compareDims dims a b = (compareDims dims b a).map (fun r => -r) := by
  intro dims
  induction dims with
  | nil => intro a b _; simp [compareDims]
  | cons d rest ih =>
    intro a b h
    have hd := h d (List.mem_cons_self d rest)
    have hrest : ∀ d' ∈ rest, ∀ x y : Atom, d'.comparer x y = -(d'.comparer y x) :=
      fun d' hm => h d' (List.mem_cons_of_mem _ hm)
    cases hx : a.getAtom d.name with
    | none =>
      cases hy : b.getAtom d.name <;>
        simp [compareDims, GroupingDimensionSpec.compareDatums, hx, hy]
    | some x =>
      cases hy : b.getAtom d.name with
      | none => simp [compareDims, GroupingDimensionSpec.compareDatums, hx, hy]
      | some y =>
        have hcomp : d.comparer x y = -(d.comparer y x) := hd x y
        by_cases hz : d.comparer y x = 0
        · have hz' : d.comparer x y = 0 := by rw [hcomp, hz]; ring
          simp [compareDims, GroupingDimensionSpec.compareDatums, hx, hy, hz, hz',
            ih a b hrest]
        · have hz' : d.comparer x y ≠ 0 := by rw [hcomp]; simpa using hz
          simp [compareDims, GroupingDimensionSpec.compareDatums, hx, hy, hz, hz', hcomp]

theorem compareDims_self_eq_zero :
    ∀ (dims : List GroupingDimensionSpec) (a : Datum),
      (∀ d ∈ dims, ∀ x : Atom, d.comparer x x = 0) →
      (∀ d ∈ dims, (a.getAtom d.name).isSome) →
      compareDims dims a a = some 0 := by
  intro dims
  induction dims with
  | nil => intro a _ _; simp [compareDims]
  | cons d rest ih =>
    intro a h hpres
    obtain ⟨x, hx⟩ := Option.isSome_iff_exists.mp (hpres d (List.mem_cons_self d rest))
    have hzero : d.comparer x x = 0 := h d (List.mem_cons_self d rest) x
    have := ih a (fun d' hm => h d' (List.mem_cons_of_mem _ hm))
      (fun d' hm => hpres d' (List.mem_cons_of_mem _ hm))
    simp [compareDims, GroupingDimensionSpec.compareDatums, hx, hzero, this]

theorem keyLists_eq (d : Datum) :
    ∀ (dims : List GroupingDimensionSpec) (ats : List Atom),
      dims.map (fun ds => d.getAtom ds.name) = ats.map some →
      keyLists dims d = some (ats.map Atom.globalKey, ats) := by
  intro dims
  induction dims with
  | nil =>
    intro ats h
    cases ats with
    | nil => simp [keyLists]
    | cons at1 ats' => simp at h
  | cons ds rest ih =>
    intro ats h
    cases ats with
    | nil => simp at h
    | cons at1 ats' =>
      simp only [List.map_cons, List.cons.injEq] at h
      obtain ⟨h1, h2⟩ := h
      simp [keyLists, h1, ih ats' h2]

theorem compareDims_zero_keyLists :
    ∀ (dims : List GroupingDimensionSpec) (a b : Datum),
      (∀ ds ∈ dims, ∀ x y : Atom, ds.comparer x y = 0 → x.globalKey = y.globalKey) →
      compareDims dims a b = some 0 →
      ∃ pa pb, keyLists dims a = some pa ∧ keyLists dims b = some pb ∧
        pa.1 = pb.1 := by
  intro dims
  induction dims with
  | nil =>
    intro a b _ _
    exact ⟨([], []), ([], []), rfl, rfl, rfl⟩
  | cons ds rest ih =>
    intro a b h hc
    cases hx : a.getAtom ds.name with
    | none => simp [compareDims, GroupingDimensionSpec.compareDatums, hx] at hc
    | some x =>
      cases hy : b.getAtom ds.name with
      | none => simp [compareDims, GroupingDimensionSpec.compareDatums, hx, hy] at hc
      | some y =>
        by_cases hz : ds.comparer x y = 0
        · have hrec : compareDims rest a b = some 0 := by
            simpa [compareDims, GroupingDimensionSpec.compareDatums, hx, hy, hz] using hc
          have hkey : x.globalKey = y.globalKey :=
            h ds (List.mem_cons_self ds rest) x y hz
          obtain ⟨pa, pb, hpa, hpb, hfst⟩ :=
            ih a b (fun d' hm => h d' (List.mem_cons_of_mem _ hm)) hrec
          refine ⟨(x.globalKey :: pa.1, x :: pa.2), (y.globalKey :: pb.1, y :: pb.2),
            ?_, ?_, ?_⟩
          · simp [keyLists, hx, hpa]
          · simp [keyLists, hy, hpb]
          · simp [hkey, hfst]
        · simp [compareDims, GroupingDimensionSpec.compareDatums, hx, hy, hz] at hc

theorem compareDims_isSome :
    ∀ (dims : List GroupingDimensionSpec) (a b : Datum),
      (∀ d ∈ dims, (a.getAtom d.name).isSome ∧ (b.getAtom d.name).isSome) →
      (compareDims dims a b).isSome := by
  intro dims
  induction dims with
  | nil => intro a b _; simp [compareDims]
  | cons d rest ih =>
    intro a b h
    obtain ⟨hxa, hxb⟩ := h d (List.mem_cons_self d rest)
    obtain ⟨x, hx⟩ := Option.isSome_iff_exists.mp hxa
    obtain ⟨y, hy⟩ := Option.isSome_iff_exists.mp hxb
    by_cases hz : d.comparer x y = 0
    · simpa [compareDims, GroupingDimensionSpec.compareDatums, hx, hy, hz] using
        ih a b (fun d' hm => h d' (List.mem_cons_of_mem _ hm))
    · simp [compareDims, GroupingDimensionSpec.compareDatums, hx, hy, hz]

theorem keyLists_isSome :
    ∀ (dims : List GroupingDimensionSpec) (d : Datum),
      (∀ ds ∈ dims, (d.getAtom ds.name).isSome) →
      (keyLists dims d).isSome := by
  intro dims
  induction dims with
  | nil => intro d _; simp [keyLists]
  | cons ds rest ih =>
    intro d h
    obtain ⟨x, hx⟩ := Option.isSome_iff_exists.mp (h ds (List.mem_cons_self ds rest))
    have := ih d (fun d' hm => h d' (List.mem_cons_of_mem _ hm))
    obtain ⟨p, hp⟩ := Option.isSome_iff_exists.mp this
    simp [keyLists, hx, hp]

theorem keyLists_none_of_missing :
    ∀ (dims : List GroupingDimensionSpec) (d : Datum) (ds : GroupingDimensionSpec),
      ds ∈ dims → d.getAtom ds.name = none → keyLists dims d = none := by
  intro dims
  induction dims with
  | nil => intro d ds hm; exact absurd hm (List.not_mem_nil ds)
  | cons d0 rest ih =>
    intro d ds hm hnone
    rcases List.mem_cons.mp hm with rfl | hm'
    · simp [keyLists, hnone]
    · cases hx : d.getAtom d0.name with
      | none => simp [keyLists, hx]
      | some x => simp [keyLists, hx, ih d ds hm' hnone]

/-! ### Claim theorems -/

/-- C1: for every `GroupingLevelSpec` (built, as every one in the source is,
from its dimension list) and any two datums whose per-dimension
`compareDatums` results are `rs`, `compare(a, b)` returns the result of the
first dimension (in the level's dimension order) whose `compareDatums(a, b)`
is non-zero, and 0 when every dimension's result is 0 — a strict
lexicographic composite comparator. -/
theorem level_compare_is_lexicographic
    (dims : List GroupingDimensionSpec) (a b : Datum) (rs : List Int)
    (h : dims.map (fun d => d.compareDatums a b) = rs.map some) :
    (GroupingLevelSpec.init dims).compare a b = some (firstNonZero rs) := by
  rw [init_compare_eq_compareDims]
  exact compareDims_eq_firstNonZero a b dims rs h

/-- Witness for `level_compare_is_lexicographic`: over the level `x, y`,
`datumA` and `datumA2` tie on `x` and differ on `y`, so the per-dimension
results are `[0, -1]` and `compare` returns the first non-zero one. -/
theorem level_compare_is_lexicographic_witness :
    (GroupingLevelSpec.init [dimX, dimY]).compare datumA datumA2 =
      some (firstNonZero [0, -1]) :=
  level_compare_is_lexicographic [dimX, dimY] datumA datumA2 [0, -1] (by decide)

/-- C2: for every level and datum whose atoms for the level's dimensions are
`ats`, `key(d)` returns the comma-joined `globalKey()` strings of `ats`
together with `ats` itself, in dimension order; and for any two datums that
`compare` ranks equal, the composite keys coincide, under the precondition
that every dimension's `globalKey` is a faithful equality witness for its
comparator. -/
theorem level_key_structure_and_consistency (dims : List GroupingDimensionSpec) :
    (∀ (d : Datum) (ats : List Atom),
        dims.map (fun ds => d.getAtom ds.name) = ats.map some →
        (GroupingLevelSpec.init dims).key d =
          some { key := String.intercalate "," (ats.map Atom.globalKey),
                 atoms := ats }) ∧
    (∀ a b : Datum,
        (∀ ds ∈ dims, ∀ x y : Atom, ds.comparer x y = 0 ↔ x.globalKey = y.globalKey) →
        (GroupingLevelSpec.init dims).compare a b = some 0 →
        ((GroupingLevelSpec.init dims).key a).isSome ∧
        ((GroupingLevelSpec.init dims).key b).isSome ∧
        ((GroupingLevelSpec.init dims).key a).map LevelKey.key =
          ((GroupingLevelSpec.init dims).key b).map LevelKey.key) := by
  constructor
  · intro d ats h
    rw [init_key_eq_keyLists, keyLists_eq d dims ats h]
    rfl
  · intro a b hfaith hcomp
    rw [init_compare_eq_compareDims] at hcomp
    obtain ⟨pa, pb, hpa, hpb, hfst⟩ :=
      compareDims_zero_keyLists dims a b
        (fun ds hm x y h0 => (hfaith ds hm x y).mp h0) hcomp
    rw [init_key_eq_keyLists, init_key_eq_keyLists, hpa, hpb]
    simp [hfst]

/-- Witness for `level_key_structure_and_consistency`, over a dimension whose
comparator is exactly global-key equality (a faithful equality witness):
the key of `datumA` is its atom's global key, and `datumA`/`datumA2`, which
compare equal on that dimension, get equal keys. -/
theorem level_key_structure_and_consistency_witness :
    ((GroupingLevelSpec.init [dimK]).key datumA =
      some { key := String.intercalate "," ([Atom.mk 1 "gx1"].map Atom.globalKey),
             atoms := [Atom.mk 1 "gx1"] }) ∧
    (((GroupingLevelSpec.init [dimK]).key datumA).isSome ∧
     ((GroupingLevelSpec.init [dimK]).key datumA2).isSome ∧
     ((GroupingLevelSpec.init [dimK]).key datumA).map LevelKey.key =
       ((GroupingLevelSpec.init [dimK]).key datumA2).map LevelKey.key) := by
  constructor
  · exact (level_key_structure_and_consistency [dimK]).1 datumA [Atom.mk 1 "gx1"]
      (by decide)
  · refine (level_key_structure_and_consistency [dimK]).2 datumA datumA2 ?_ (by decide)
    intro ds hds x y
    have : ds = dimK := by simpa using hds
    subst this
    simp only [dimK, dimTypeK, GroupingDimensionSpec.init, keyEqComparer]
    split_ifs with h
    · simp [h]
    · simp [h]

/-- C7 (reason: the comparator implementations live outside the analyzed
sources and are modelled from the spec as `modelAtomComparer`): for every
level built over dimension types carrying the modelled comparator and any two
datums, `compare(a, b)` is the negation of `compare(b, a)`, and
`compare(a, a) = 0` (on a datum carrying atoms for the level's dimensions). -/
theorem level_compare_antisymmetric_and_reflexive
    (specs : List (DimensionType × Bool)) (a b : Datum)
    (h : ∀ p ∈ specs, p.1.atomComparer = modelAtomComparer) :
    ((modelLevel specs).compare a b =
      ((modelLevel specs).compare b a).map (fun r => -r)) ∧
    ((∀ p ∈ specs, (a.getAtom p.1.name).isSome) →
      (modelLevel specs).compare a a = some 0) := by
  constructor
  · rw [modelLevel, init_compare_eq_compareDims, init_compare_eq_compareDims]
    apply compareDims_antisymm
    intro d hd x y
    obtain ⟨p, hp, rfl⟩ := List.mem_map.mp hd
    simp only [GroupingDimensionSpec.init, h p hp]
    exact modelAtomComparer_antisymm p.2 x y
  · intro hpres
    rw [modelLevel, init_compare_eq_compareDims]
    apply compareDims_self_eq_zero
    · intro d hd x
      obtain ⟨p, hp, rfl⟩ := List.mem_map.mp hd
      simp only [GroupingDimensionSpec.init, h p hp]
      exact modelAtomComparer_self p.2 x
    · intro d hd
      obtain ⟨p, hp, rfl⟩ := List.mem_map.mp hd
      simpa [GroupingDimensionSpec.init] using hpres p hp

/-- Witness for `level_compare_antisymmetric_and_reflexive` over the level
`x asc, y desc` and the datums `datumA`, `datumB`. -/
theorem level_compare_antisymmetric_and_reflexive_witness :
    ((modelLevel [(dimTypeX, false), (dimTypeY, true)]).compare datumA datumB =
      ((modelLevel [(dimTypeX, false), (dimTypeY, true)]).compare datumB datumA).map
        (fun r => -r)) ∧
    (modelLevel [(dimTypeX, false), (dimTypeY, true)]).compare datumA datumA =
      some 0 := by
  constructor
  · exact (level_compare_antisymmetric_and_reflexive
      [(dimTypeX, false), (dimTypeY, true)] datumA datumB
      (by intro p hp; simp at hp; rcases hp with rfl | rfl <;> rfl)).1
  · exact (level_compare_antisymmetric_and_reflexive
      [(dimTypeX, false), (dimTypeY, true)] datumA datumA
      (by intro p hp; simp at hp; rcases hp with rfl | rfl <;> rfl)).2
      (by intro p hp; simp at hp; rcases hp with rfl | rfl <;> rfl)

/-- C10 (amended): `key(d)` is defined exactly under the unstated precondition
that `d` carries an atom for every one of the level's dimension names — any
missing atom leaves it undefined; `compare(a, b)` is defined whenever both
datums carry atoms for all the level's dimension names. (`compare` can,
however, also be defined when a later dimension's atom is missing, because it
short-circuits at the first non-zero dimension — see the counterexample.) -/
theorem compare_key_definedness (dims : List GroupingDimensionSpec)
    (a b : Datum) :
    ((∀ d ∈ dims, (a.getAtom d.name).isSome ∧ (b.getAtom d.name).isSome) →
      ((GroupingLevelSpec.init dims).compare a b).isSome ∧
      ((GroupingLevelSpec.init dims).key a).isSome ∧
      ((GroupingLevelSpec.init dims).key b).isSome) ∧
    (∀ ds ∈ dims, a.getAtom ds.name = none →
      (GroupingLevelSpec.init dims).key a = none) := by
  constructor
  · intro h
    refine ⟨?_, ?_, ?_⟩
    · rw [init_compare_eq_compareDims]
      exact compareDims_isSome dims a b h
    · rw [init_key_eq_keyLists]
      have := keyLists_isSome dims a (fun ds hm => (h ds hm).1)
      simpa using this
    · rw [init_key_eq_keyLists]
      have := keyLists_isSome dims b (fun ds hm => (h ds hm).2)
      simpa using this
  · intro ds hm hnone
    rw [init_key_eq_keyLists, keyLists_none_of_missing dims a ds hm hnone]
    rfl

/-- Witness for `compare_key_definedness`: over the level `x, y`, both
operations are defined on `datumA`/`datumB` (which carry both atoms), and the
key of `datumNoY` (which lacks `y`) is undefined. -/
theorem compare_key_definedness_witness :
    (((GroupingLevelSpec.init [dimX, dimY]).compare datumA datumB).isSome ∧
     ((GroupingLevelSpec.init [dimX, dimY]).key datumA).isSome ∧
     ((GroupingLevelSpec.init [dimX, dimY]).key datumB).isSome) ∧
    (GroupingLevelSpec.init [dimX, dimY]).key datumNoY = none := by
  constructor
  · exact (compare_key_definedness [dimX, dimY] datumA datumB).1 (by decide)
  · exact (compare_key_definedness [dimX, dimY] datumNoY datumB).2 dimY
      (List.mem_cons_of_mem _ (List.mem_cons_self _ _)) (by decide)

/-- Counterexample to C10 as stated: over the level `x, y`, the datum
`datumNoY` lacks an atom for the level dimension name `y`, yet
`compare(datumA, datumNoY)` is defined (it returns the non-zero `x` result
without ever consulting `y`) — so a missing atom does not always leave
`compare` undefined. -/
theorem compare_defined_despite_missing_atom :
    (GroupingLevelSpec.init [dimX, dimY]).compare datumA datumNoY = some (-1) ∧
    datumNoY.getAtom "y" = none ∧
    "y" ∈ (GroupingLevelSpec.init [dimX, dimY]).dimensions.map
      GroupingDimensionSpec.name := by
  decide

/-- C3: `GroupingSpec.parse` splits a string spec on commas into level
fragments and each level fragment on `|` into dimension fragments (empty
fragments dropped), accepting an optional trailing case-insensitive
`asc`/`desc` token per dimension with `reverse` true iff the token is `desc`
and ascending the default: `"series1 asc|series2 desc, category"` parses to
depth 2 with a composite first level of two dimensions (the second reversed)
and a single non-reversed dimension in the second level; the same shape
results with differently cased order tokens or an extra empty pipe fragment,
and an absent token means ascending. -/
theorem parse_grammar_examples :
    specShape (GroupingSpec.parse (some (.inl "series1 asc|series2 desc, category"))
        (some seriesCatCT)) =
      some (2, true, [[("series1", false), ("series2", true)], [("category", false)]]) ∧
    specShape (GroupingSpec.parse (some (.inl "series1 ASC|series2 Desc, category"))
        (some seriesCatCT)) =
      some (2, true, [[("series1", false), ("series2", true)], [("category", false)]]) ∧
    specShape (GroupingSpec.parse (some (.inl "series1 ||series2 desc, category"))
        (some seriesCatCT)) =
      some (2, true, [[("series1", false), ("series2", true)], [("category", false)]]) ∧
    specShape (GroupingSpec.parse (some (.inl "series1, category"))
        (some seriesCatCT)) =
      some (2, false, [[("series1", false)], [("category", false)]]) := by
  refine ⟨by decide, by decide, by decide, by decide⟩

/-- C4: for every successfully constructed `GroupingSpec`: levels with zero
dimensions are dropped; `depth` equals the number of retained levels;
`isSingleLevel` holds iff `depth = 1`; `hasCompositeLevels` holds iff some
retained level has more than one dimension; `isSingleDimension` holds iff
`isSingleLevel` and not `hasCompositeLevels`; `firstDimension` is the first
dimension of the first level (never null post-validation); and the id is
`flatteningMode ++ "##" ++ flattenRootLabel ++ "##"` followed by the retained
level ids joined by `"||"`, a level's id being its dimension ids joined by
`","` and a dimension's id being `name ++ ":" ++ ("0"` if reversed else
`"1")`. -/
theorem groupingSpec_construction_invariants
    (ls : List GroupingLevelSpec) (ct : ComplexType) (fm frl : Option String)
    (g : GroupingSpec)
    (h : GroupingSpec.init (some ls) (some ct) fm frl = .ok g) :
    g.levels = ls.filter (fun l => decide (0 < l.dimensions.length)) ∧
    g.depth = g.levels.length ∧
    (g.isSingleLevel = true ↔ g.depth = 1) ∧
    (g.hasCompositeLevels = true ↔ ∃ l ∈ g.levels, 1 < l.dimensions.length) ∧
    (g.isSingleDimension = true ↔
      (g.isSingleLevel = true ∧ g.hasCompositeLevels = false)) ∧
    (∃ l0 d0, g.levels.head? = some l0 ∧ l0.dimensions.head? = some d0 ∧
      g.firstDimension = some d0) ∧
    g.id = (g.flatteningMode.getD "") ++ "##" ++ g.flattenRootLabel ++ "##" ++
      String.intercalate "||" (g.levels.map GroupingLevelSpec.id) ∧
    (∀ dimSpecs, (GroupingLevelSpec.init dimSpecs).id =
      String.intercalate "," (dimSpecs.map GroupingDimensionSpec.id)) ∧
    (∀ (dt : DimensionType) (rev : Bool),
      (GroupingDimensionSpec.init dt rev).id =
        dt.name ++ ":" ++ (if rev then "0" else "1")) := by
  rcases hL : ls.filter (fun l => decide (0 < l.dimensions.length)) with _ | ⟨l0, rest⟩
  · simp [GroupingSpec.init, hL] at h
  · simp only [GroupingSpec.init, hL, List.length_cons] at h
    rw [if_neg (by simp)] at h
    simp only [Except.ok.injEq] at h
    subst h
    have hmem : l0 ∈ ls.filter (fun l => decide (0 < l.dimensions.length)) := by
      rw [hL]; exact List.mem_cons_self _ _
    have hp := (List.mem_filter.mp hmem).2
    simp only [decide_eq_true_eq] at hp
    refine ⟨hL.symm, rfl, by simp, by simp [List.any_eq_true], by simp, ?_, rfl,
      fun dimSpecs => rfl, fun dt rev => rfl⟩
    cases hd : l0.dimensions with
    | nil => rw [hd] at hp; simp at hp
    | cons d0 ds => exact ⟨l0, d0, rfl, by simp [hd], by simp [hd]⟩

/-- Witness for `groupingSpec_construction_invariants` at the construction of
`sampleG` from the single level `levelX`. -/
theorem groupingSpec_construction_invariants_witness :
    sampleG.levels = [levelX].filter (fun l => decide (0 < l.dimensions.length)) ∧
    sampleG.depth = sampleG.levels.length ∧
    (sampleG.isSingleLevel = true ↔ sampleG.depth = 1) ∧
    (sampleG.hasCompositeLevels = true ↔
      ∃ l ∈ sampleG.levels, 1 < l.dimensions.length) ∧
    (sampleG.isSingleDimension = true ↔
      (sampleG.isSingleLevel = true ∧ sampleG.hasCompositeLevels = false)) ∧
    (∃ l0 d0, sampleG.levels.head? = some l0 ∧ l0.dimensions.head? = some d0 ∧
      sampleG.firstDimension = some d0) ∧
    sampleG.id = (sampleG.flatteningMode.getD "") ++ "##" ++
      sampleG.flattenRootLabel ++ "##" ++
      String.intercalate "||" (sampleG.levels.map GroupingLevelSpec.id) ∧
    (∀ dimSpecs, (GroupingLevelSpec.init dimSpecs).id =
      String.intercalate "," (dimSpecs.map GroupingDimensionSpec.id)) ∧
    (∀ (dt : DimensionType) (rev : Bool),
      (GroupingDimensionSpec.init dt rev).id =
        dt.name ++ ":" ++ (if rev then "0" else "1")) :=
  groupingSpec_construction_invariants [levelX] sampleCT none none sampleG rfl

/-- C5 (amended): the constructor fails argument-required when `levelSpecs` or
`complexType` is absent and argument-invalid when zero levels remain after
filtering; `parse` fails argument-required when `specText` or `type` is
absent; `parse` of an empty array fails with ArgumentInvalid (zero levels);
but `parse` of an empty string fails with the argument-required error for
`groupingSpecText` (an empty string is falsy and trips the required-argument
check before any level is built), not with ArgumentInvalid. -/
theorem construction_and_parse_error_contract :
    (∀ (ct : Option ComplexType) (fm frl : Option String),
      GroupingSpec.init none ct fm frl =
        .error (.argumentRequired "levelSpecs")) ∧
    (∀ (ls : List GroupingLevelSpec) (fm frl : Option String),
      GroupingSpec.init (some ls) none fm frl =
        .error (.argumentRequired "complexType")) ∧
    (∀ (ls : List GroupingLevelSpec) (ct : ComplexType) (fm frl : Option String),
      ls.filter (fun l => decide (0 < l.dimensions.length)) = [] →
      GroupingSpec.init (some ls) (some ct) fm frl =
        .error (.argumentInvalid "levelSpecs")) ∧
    (∀ t, GroupingSpec.parse none t =
      .error (.argumentRequired "groupingSpecText")) ∧
    (∀ t, GroupingSpec.parse (some (.inl "")) t =
      .error (.argumentRequired "groupingSpecText")) ∧
    (∀ ct : ComplexType, GroupingSpec.parse (some (.inr [])) (some ct) =
      .error (.argumentInvalid "levelSpecs")) ∧
    (∀ st : SpecText, specTextIsFalsy st = false →
      GroupingSpec.parse (some st) none =
        .error (.argumentRequired "type")) := by
  refine ⟨fun ct fm frl => rfl, fun ls fm frl => rfl, ?_, fun t => rfl,
    fun t => rfl, fun ct => rfl, ?_⟩
  · intro ls ct fm frl hfil
    simp [GroupingSpec.init, hfil]
  · intro st h
    cases st with
    | inl s => simp [GroupingSpec.parse, specTextIsFalsy] at h ⊢; simp [h]
    | inr a => rfl

/-- Witness for `construction_and_parse_error_contract` at concrete inputs:
an absent `levelSpecs`, a level list whose only level has no dimensions, and
a non-falsy string spec with an absent type. -/
theorem construction_and_parse_error_contract_witness :
    GroupingSpec.init none (some sampleCT) none none =
      .error (.argumentRequired "levelSpecs") ∧
    GroupingSpec.init (some [GroupingLevelSpec.init []]) (some sampleCT) none none =
      .error (.argumentInvalid "levelSpecs") ∧
    GroupingSpec.parse (some (.inl "x")) none =
      .error (.argumentRequired "type") := by
  refine ⟨construction_and_parse_error_contract.1 (some sampleCT) none none, ?_, ?_⟩
  · exact construction_and_parse_error_contract.2.2.1 [GroupingLevelSpec.init []]
      sampleCT none none rfl
  · exact construction_and_parse_error_contract.2.2.2.2.2.2 (.inl "x") (by decide)

/-- Counterexample to C5 as stated: `parse` of an empty string does not fail
with ArgumentInvalid — the empty string is falsy, so it trips the
required-argument check for `groupingSpecText` first. -/
theorem parse_empty_string_fails_argument_required :
    GroupingSpec.parse (some (.inl "")) (some seriesCatCT) =
      .error (.argumentRequired "groupingSpecText") ∧
    GroupingSpec.parse (some (.inl "")) (some seriesCatCT) ≠
      .error (.argumentInvalid "levelSpecs") := by
  refine ⟨rfl, fun h => ?_⟩
  rw [show GroupingSpec.parse (some (.inl "")) (some seriesCatCT) =
      .error (.argumentRequired "groupingSpecText") from rfl] at h
  simp at h

theorem reversedSpec_dim_WF (d : GroupingDimensionSpec) :
    (GroupingDimensionSpec.reversedSpec d).WF := rfl

theorem reversedSpec_dim_involutive (d : GroupingDimensionSpec) (h : d.WF) :
    d.reversedSpec.reversedSpec = d := by
  have h1 : d.reversedSpec.reversedSpec =
      GroupingDimensionSpec.init d.type d.reverse := by
    simp [GroupingDimensionSpec.reversedSpec, GroupingDimensionSpec.init,
      Bool.not_not]
  rw [h1, ← h]

theorem reversedSpec_level_WF (l : GroupingLevelSpec)
    (hne : l.dimensions ≠ []) : (GroupingLevelSpec.reversedSpec l).WF := by
  refine ⟨rfl, ?_, ?_⟩
  · simp [GroupingLevelSpec.reversedSpec, GroupingLevelSpec.init, hne]
  · intro d hd
    obtain ⟨d0, _, rfl⟩ := List.mem_map.mp hd
    exact reversedSpec_dim_WF d0

theorem reversedSpec_level_involutive (l : GroupingLevelSpec) (h : l.WF) :
    l.reversedSpec.reversedSpec = l := by
  obtain ⟨hinit, hne, hdims⟩ := h
  have h1 : l.reversedSpec.reversedSpec =
      GroupingLevelSpec.init
        ((l.dimensions.map GroupingDimensionSpec.reversedSpec).map
          GroupingDimensionSpec.reversedSpec) := rfl
  rw [h1, List.map_map]
  have h2 : ∀ d ∈ l.dimensions,
      (GroupingDimensionSpec.reversedSpec ∘ GroupingDimensionSpec.reversedSpec) d =
        id d :=
    fun d hd => reversedSpec_dim_involutive d (hdims d hd)
  rw [List.map_congr_left h2, List.map_id]
  exact hinit.symm

theorem reversed_ok_of_wf (g : GroupingSpec) (h : g.WFLevels) :
    ∃ g1, g.reversed = .ok g1 ∧
      g1.levels = g.levels.map GroupingLevelSpec.reversedSpec ∧ g1.WFLevels := by
  obtain ⟨hne, hwf⟩ := h
  have hfil : (g.levels.map GroupingLevelSpec.reversedSpec).filter
      (fun l => decide (0 < l.dimensions.length)) =
      g.levels.map GroupingLevelSpec.reversedSpec := by
    apply List.filter_eq_self.mpr
    intro l hl
    obtain ⟨l0, hl0, rfl⟩ := List.mem_map.mp hl
    have hne0 : l0.dimensions ≠ [] := (hwf l0 hl0).2.1
    simp [GroupingLevelSpec.reversedSpec, GroupingLevelSpec.init,
      List.length_pos, hne0]
  have hlen : ((g.levels.map GroupingLevelSpec.reversedSpec).length = 0) = False := by
    simp [List.length_eq_zero, hne]
  rw [GroupingSpec.reversed]
  simp only [GroupingSpec.init, hfil, hlen, if_false]
  refine ⟨_, rfl, rfl, ?_, ?_⟩
  · simp [hne]
  · intro l hl
    obtain ⟨l0, hl0, rfl⟩ := List.mem_map.mp hl
    exact reversedSpec_level_WF l0 (hwf l0 hl0).2.1

/-- C6: for every well-formed `GroupingSpec` (each level and dimension the
output of its constructor, as in the source), reversing twice succeeds and is
comparator-equivalent to the original: level by level, `compare` returns the
same value on every pair of datums — although the doubly-reversed spec is a
rebuilt instance, not necessarily the original one. -/
theorem reversed_twice_comparator_equivalent (g : GroupingSpec)
    (h : g.WFLevels) (a b : Datum) :
    (g.reversed.bind GroupingSpec.reversed).map
        (fun g2 => g2.levels.map (fun l => l.compare a b)) =
      .ok (g.levels.map (fun l => l.compare a b)) := by
  obtain ⟨g1, hg1, hlv1, hwf1⟩ := reversed_ok_of_wf g h
  obtain ⟨g2, hg2, hlv2, _⟩ := reversed_ok_of_wf g1 hwf1
  rw [hg1]
  show (g1.reversed.map (fun g2 => g2.levels.map (fun l => l.compare a b))) = _
  rw [hg2]
  show Except.ok (g2.levels.map (fun l => l.compare a b)) = _
  have h2 : ∀ l ∈ g.levels,
      (GroupingLevelSpec.reversedSpec ∘ GroupingLevelSpec.reversedSpec) l =
        id l :=
    fun l hl => reversedSpec_level_involutive l (h.2 l hl)
  have hgl : g2.levels = g.levels := by
    rw [hlv2, hlv1, List.map_map, List.map_congr_left h2, List.map_id]
  rw [hgl]

theorem sampleG_wf : sampleG.WFLevels := by
  refine ⟨by simp [sampleG], ?_⟩
  intro l hl
  have : l = levelX := by simpa [sampleG] using hl
  subst this
  refine ⟨rfl, by simp [levelX, GroupingLevelSpec.init], ?_⟩
  intro d hd
  have : d = dimX := by simpa [levelX, GroupingLevelSpec.init] using hd
  subst this
  rfl

/-- Witness for `reversed_twice_comparator_equivalent` at `sampleG` and the
datums `datumA`, `datumB`. -/
theorem reversed_twice_comparator_equivalent_witness :
    (sampleG.reversed.bind GroupingSpec.reversed).map
        (fun g2 => g2.levels.map (fun l => l.compare datumA datumB)) =
      .ok (sampleG.levels.map (fun l => l.compare datumA datumB)) :=
  reversed_twice_comparator_equivalent sampleG sampleG_wf datumA datumB

theorem init_singleton_projections (dims : List GroupingDimensionSpec)
    (ct : ComplexType) (fm : Option String) (hne : dims ≠ []) :
    (GroupingSpec.init (some [GroupingLevelSpec.init dims]) (some ct) fm none).map
        GroupingSpec.levels = .ok [GroupingLevelSpec.init dims] ∧
    (GroupingSpec.init (some [GroupingLevelSpec.init dims]) (some ct) fm none).map
        GroupingSpec.flatteningMode =
      .ok (fm.bind (fun s => if s = "" then none else some s)) ∧
    (GroupingSpec.init (some [GroupingLevelSpec.init dims]) (some ct) fm none).map
        GroupingSpec.type = .ok ct := by
  have hp : 0 < (GroupingLevelSpec.init dims).dimensions.length := by
    simpa [GroupingLevelSpec.init] using List.length_pos.mpr hne
  simp [GroupingSpec.init, List.filter_cons, hp, Except.map]

/-- C8: `singleLevelGrouping` returns the very same instance when the spec is
already single-level and no reversal is requested; otherwise it returns a
grouping spec with exactly one level containing every dimension of every
level, in level order then within-level order, each dimension's reverse flag
inverted iff the reverse option is true, with the original `flatteningMode`
carried over. -/
theorem singleLevelGrouping_contract (g : GroupingSpec) (rev : Bool) :
    (g.isSingleLevel = true → g.singleLevelGrouping false = .ok g) ∧
    ((g.isSingleLevel = false ∨ rev = true) → g.dimensions ≠ [] →
      g.flatteningMode ≠ some "" →
      (g.singleLevelGrouping rev).map GroupingSpec.levels =
        .ok [GroupingLevelSpec.init (g.dimensions.map (fun d =>
          if rev then GroupingDimensionSpec.init d.type (!d.reverse) else d))] ∧
      (g.singleLevelGrouping rev).map GroupingSpec.flatteningMode =
        .ok g.flatteningMode ∧
      (g.singleLevelGrouping rev).map GroupingSpec.type = .ok g.type) := by
  constructor
  · intro h
    simp [GroupingSpec.singleLevelGrouping, h]
  · intro hcond hdims hfm
    have hif : (g.isSingleLevel && !rev) = false := by
      rcases hcond with h | h <;> simp [h]
    have hne2 : g.dimensions.map (fun d =>
        if rev then GroupingDimensionSpec.init d.type (!d.reverse) else d) ≠ [] := by
      simp [hdims]
    have hnorm : g.flatteningMode.bind (fun s => if s = "" then none else some s) =
        g.flatteningMode := by
      cases hg : g.flatteningMode with
      | none => rfl
      | some s =>
        have : s ≠ "" := fun e => hfm (by rw [hg, e])
        simp [this]
    rw [GroupingSpec.singleLevelGrouping, if_neg (by simp [hif])]
    obtain ⟨p1, p2, p3⟩ :=
      init_singleton_projections (g.dimensions.map (fun d =>
        if rev then GroupingDimensionSpec.init d.type (!d.reverse) else d))
        g.type g.flatteningMode hne2
    exact ⟨p1, by rw [p2, hnorm], p3⟩

/-- Witness for `singleLevelGrouping_contract` at `sampleG`: the identity
short-circuit with no reversal, and the collapsed-and-reversed variant. -/
theorem singleLevelGrouping_contract_witness :
    sampleG.singleLevelGrouping false = .ok sampleG ∧
    (sampleG.singleLevelGrouping true).map GroupingSpec.levels =
      .ok [GroupingLevelSpec.init (sampleG.dimensions.map (fun d =>
        if true then GroupingDimensionSpec.init d.type (!d.reverse) else d))] ∧
    (sampleG.singleLevelGrouping true).map GroupingSpec.flatteningMode =
      .ok sampleG.flatteningMode ∧
    (sampleG.singleLevelGrouping true).map GroupingSpec.type = .ok sampleG.type := by
  refine ⟨(singleLevelGrouping_contract sampleG false).1 rfl, ?_⟩
  exact (singleLevelGrouping_contract sampleG true).2 (Or.inr rfl)
    (by simp [sampleG, GroupingSpec.dimensions, levelX, GroupingLevelSpec.init])
    (by simp [sampleG])

/-- C9: `ensure(options)`: the sentinel `'singleLevel'` flattening mode
delegates to `singleLevelGrouping` (which honors reverse); otherwise a
requested flattening mode differing from the current one in mode or root
label rebuilds the grouping over the same levels and type with the new
flattening metadata; finally a truthy reverse option applies `reversed()` to
the possibly rebuilt result — flattening normalization always precedes
reversal. -/
theorem ensure_contract (g : GroupingSpec) (fmArg frlArg : Option String)
    (revArg : Option Bool) :
    (fmArg = some "singleLevel" →
      g.ensure fmArg frlArg revArg = g.singleLevelGrouping (revArg.getD false)) ∧
    (∀ fm, fmArg = some fm → fm ≠ "" → fm ≠ "singleLevel" →
      g.ensure fmArg frlArg revArg =
        (if g.flatteningMode = some fm ∧ g.flattenRootLabel = frlArg.getD ""
         then Except.ok g
         else GroupingSpec.init (some g.levels) (some g.type) (some fm)
           (some (frlArg.getD ""))).bind
          (fun g2 => if revArg.getD false then g2.reversed else Except.ok g2)) ∧
    ((fmArg = none ∨ fmArg = some "") →
      g.ensure fmArg frlArg revArg =
        if revArg.getD false then g.reversed else Except.ok g) := by
  refine ⟨?_, ?_, ?_⟩
  · intro h
    simp [GroupingSpec.ensure, h]
  · intro fm h hne hnsl
    simp [GroupingSpec.ensure, h, hne, hnsl]
  · intro h
    rcases h with rfl | rfl <;> simp [GroupingSpec.ensure]

/-- Witness for `ensure_contract` at `sampleG`: the `'singleLevel'` sentinel
with reverse, a differing `'tree-pre'` flattening request, and a plain
no-flattening call. -/
theorem ensure_contract_witness :
    sampleG.ensure (some "singleLevel") none (some true) =
      sampleG.singleLevelGrouping ((some true).getD false) ∧
    sampleG.ensure (some "tree-pre") none none =
      (if sampleG.flatteningMode = some "tree-pre" ∧
          sampleG.flattenRootLabel = (none : Option String).getD ""
       then Except.ok sampleG
       else GroupingSpec.init (some sampleG.levels) (some sampleG.type)
         (some "tree-pre") (some ((none : Option String).getD ""))).bind
        (fun g2 => if (none : Option Bool).getD false then g2.reversed
         else Except.ok g2) ∧
    sampleG.ensure none none (some false) =
      if (some false).getD false then sampleG.reversed else Except.ok sampleG := by
  refine ⟨?_, ?_, ?_⟩
  · exact (ensure_contract sampleG (some "singleLevel") none (some true)).1 rfl
  · exact (ensure_contract sampleG (some "tree-pre") none none).2.1 "tree-pre" rfl
      (by decide) (by decide)
  · exact (ensure_contract sampleG none none (some false)).2.2 (Or.inl rfl)

end pvc.data
